import Mathlib

/-!
# Verification of the trello-clone board store and storage-sync hook

Shallow embedding of the core logic of the `jsfather/trello-clone`
repository:

* `src/utils/helpers.ts` — `reorderArray`, `safeJsonParse`;
* the `useBoard` hook — all board state operations
  (`updateBoardTitle`, `addList`, `updateListTitle`, `deleteList`,
  `deleteAllCards`, `reorderLists`, `addCard`, `updateCardTitle`,
  `deleteCard`, `reorderCards`, `moveCard`, `addComment`, `resetBoard`);
* the `useLocalStorage` hook — hydration, write-through, cross-tab
  storage events.

JavaScript arrays may hold `undefined` entries (e.g. `splice` past the
end removes nothing and the destructured `removed` is `undefined`,
which the second `splice` then inserts).  We therefore model a JS array
of `T` as `List (Option T)`, `none` standing for `undefined`.  A
callback that dereferences a property of an `undefined` element throws
a `TypeError`; combinators modelling `.map` / `.find` / `.filter`
therefore return `Option` (`none` = an exception escaped).
`getCurrentTimestamp()` is passed in as an explicit `now : String`
argument, and `generateId` results as explicit fresh-id arguments.
-/

namespace Trello

/-- A JavaScript array of `α` values: entries may be `undefined` (`none`). -/
abbrev JsArr (α : Type) := List (Option α)

/-- All entries of a JS array are defined (no `undefined` holes). -/
def allDef (l : JsArr α) : Prop := ∀ o ∈ l, o.isSome

instance (l : JsArr α) : Decidable (allDef l) := by
  unfold allDef; infer_instance

/-- Models `arr.map(cb)` where the callback may throw (`none`) and throws
a `TypeError` when it dereferences an `undefined` entry. -/
def mapJs (f : α → Option β) : JsArr α → Option (JsArr β)
  | [] => some []
  | none :: _ => none
  | some a :: rest =>
    match f a, mapJs f rest with
    | some b, some r => some (some b :: r)
    | _, _ => none

/-- Models `arr.find(p)` where the predicate dereferences its argument:
outer `none` = a `TypeError` was thrown on an `undefined` entry before a
match; `some none` = no match; `some (some a)` = first match. -/
def findJs (p : α → Bool) : JsArr α → Option (Option α)
  | [] => some none
  | none :: _ => none
  | some a :: rest => if p a then some (some a) else findJs p rest

/-- Models `arr.filter(p)` where the predicate dereferences its argument. -/
def filterJs (p : α → Bool) : JsArr α → Option (JsArr α)
  | [] => some []
  | none :: _ => none
  | some a :: rest =>
    match filterJs p rest with
    | some r => some (if p a then some a :: r else r)
    | none => none

/-- The actual start index used by `Array.prototype.splice(start, …)`:
negative indices count from the end, then the result is clamped to
`[0, len]`. -/
def jsStart (len : Nat) (i : Int) : Nat :=
  if i < 0 then ((len : Int) + i).toNat else min i.toNat len

/-- Models `arr.splice(start, 1)`: returns the array after removal and
the removed element (`none` when `start` clamps to `len`, so nothing is
removed). -/
def splice1 (l : List α) (start : Int) : List α × Option α :=
  (l.take (jsStart l.length start) ++ l.drop (jsStart l.length start + 1),
   l[jsStart l.length start]?)

/-- Models `arr.splice(start, 0, x)`: inserts `x` at the clamped start
position. -/
def spliceIns (l : List α) (start : Int) (x : α) : List α :=
  l.take (jsStart l.length start) ++ x :: l.drop (jsStart l.length start)

/-- Function `reorderArray` from `src/utils/helpers.ts`:

```ts
const result = Array.from(list);
const [removed] = result.splice(startIndex, 1);
result.splice(endIndex, 0, removed);
return result;
```

`removed` is the JS value destructured from the removal result, i.e.
`undefined` when the removal removed nothing. -/
def reorderArray (l : JsArr α) (startIndex endIndex : Int) : JsArr α :=
  spliceIns (splice1 l startIndex).1 endIndex (splice1 l startIndex).2.join

/-! ## Data model (`src/types/index.ts`) -/

/-- The `Comment` interface. -/
structure Comment where
  id : String
  text : String
  createdAt : String
deriving Repr, DecidableEq

/-- The `Card` interface (`description?` is optional). -/
structure Card where
  id : String
  title : String
  description : Option String
  comments : JsArr Comment
  createdAt : String
deriving Repr, DecidableEq

/-- The source's `List` interface (named `BList` here because `List` is
taken by Lean). -/
structure BList where
  id : String
  title : String
  cards : JsArr Card
deriving Repr, DecidableEq

/-- The `Board` interface. -/
structure Board where
  id : String
  title : String
  lists : JsArr BList
  createdAt : String
  updatedAt : String
deriving Repr, DecidableEq

/-! ## Board operations (the `useBoard` hook)

Each `setBoard` updater becomes a function of the previous board.  An
operation returns `none` exactly when the JS code would throw (only
possible on boards with `undefined` entries). -/

/-- Operation `updateBoardTitle`. -/
def updateBoardTitle (b : Board) (title now : String) : Board :=
  { b with title := title, updatedAt := now }

/-- Operation `addList`; `newId` is the value produced by `generateId("list")`. -/
def addList (b : Board) (title newId now : String) : Board :=
  { b with
    lists := b.lists ++ [some { id := newId, title := title, cards := [] }],
    updatedAt := now }

/-- Operation `updateListTitle`. -/
def updateListTitle (b : Board) (listId title now : String) : Option Board :=
  (mapJs (fun l => some (if l.id = listId then { l with title := title } else l))
      b.lists).map
    fun ls => { b with lists := ls, updatedAt := now }

/-- Operation `deleteList`. -/
def deleteList (b : Board) (listId now : String) : Option Board :=
  (filterJs (fun l => l.id ≠ listId) b.lists).map
    fun ls => { b with lists := ls, updatedAt := now }

/-- Operation `deleteAllCards`. -/
def deleteAllCards (b : Board) (listId now : String) : Option Board :=
  (mapJs (fun l => some (if l.id = listId then { l with cards := [] } else l))
      b.lists).map
    fun ls => { b with lists := ls, updatedAt := now }

/-- Operation `reorderLists`. -/
def reorderLists (b : Board) (startIndex endIndex : Int) (now : String) : Board :=
  { b with lists := reorderArray b.lists startIndex endIndex, updatedAt := now }

/-- Operation `addCard`; `cardId` is `generateId("card")`, `createdAt` the first
`getCurrentTimestamp()` call, `now` the second one. -/
def addCard (b : Board) (listId title cardId createdAt now : String) : Option Board :=
  let newCard : Card :=
    { id := cardId, title := title, description := none, comments := [],
      createdAt := createdAt }
  (mapJs (fun l => some (if l.id = listId
        then { l with cards := l.cards ++ [some newCard] } else l))
      b.lists).map
    fun ls => { b with lists := ls, updatedAt := now }

/-- Operation `updateCardTitle`. -/
def updateCardTitle (b : Board) (listId cardId title now : String) : Option Board :=
  (mapJs (fun l =>
      if l.id = listId then
        (mapJs (fun c => some (if c.id = cardId then { c with title := title } else c))
            l.cards).map
          fun cs => { l with cards := cs }
      else some l) b.lists).map
    fun ls => { b with lists := ls, updatedAt := now }

/-- Operation `deleteCard`. -/
def deleteCard (b : Board) (listId cardId now : String) : Option Board :=
  (mapJs (fun l =>
      if l.id = listId then
        (filterJs (fun c => c.id ≠ cardId) l.cards).map
          fun cs => { l with cards := cs }
      else some l) b.lists).map
    fun ls => { b with lists := ls, updatedAt := now }

/-- Operation `reorderCards`. -/
def reorderCards (b : Board) (listId : String) (startIndex endIndex : Int)
    (now : String) : Option Board :=
  (mapJs (fun l => some (if l.id = listId
        then { l with cards := reorderArray l.cards startIndex endIndex } else l))
      b.lists).map
    fun ls => { b with lists := ls, updatedAt := now }

/-- Operation `moveCard`.  Mirrors the source line by line: both lists are looked
up with `find`; when either is missing the previous board is returned
unchanged.  In the same-list case both splices act on the one copied
array; in the cross-list case the removal acts on the source copy and
the insertion on the destination copy. -/
def moveCard (b : Board) (sourceListId destListId : String)
    (sourceIndex destIndex : Int) (now : String) : Option Board :=
  match findJs (fun l => l.id = sourceListId) b.lists with
  | none => none
  | some sourceList? =>
  match findJs (fun l => l.id = destListId) b.lists with
  | none => none
  | some destList? =>
  match sourceList?, destList? with
  | some sourceList, some destList =>
    let r := splice1 sourceList.cards sourceIndex
    let movedCard := r.2.join
    let sourceCards :=
      if sourceListId = destListId then spliceIns r.1 destIndex movedCard else r.1
    let destCards :=
      if sourceListId = destListId then sourceCards
      else spliceIns destList.cards destIndex movedCard
    (mapJs (fun l => some (
        if l.id = sourceListId then { l with cards := sourceCards }
        else if l.id = destListId ∧ sourceListId ≠ destListId then
          { l with cards := destCards }
        else l)) b.lists).map
      fun ls => { b with lists := ls, updatedAt := now }
  | _, _ => some b

/-- Operation `addComment`; `commentId` is `generateId("comment")`, `createdAt`
the first `getCurrentTimestamp()` call, `now` the second one. -/
def addComment (b : Board) (listId cardId text commentId createdAt now : String) :
    Option Board :=
  let newComment : Comment := { id := commentId, text := text, createdAt := createdAt }
  (mapJs (fun l =>
      if l.id = listId then
        (mapJs (fun c => some (if c.id = cardId
              then { c with comments := c.comments ++ [some newComment] } else c))
            l.cards).map
          fun cs => { l with cards := cs }
      else some l) b.lists).map
    fun ls => { b with lists := ls, updatedAt := now }

/-- Constant `DEFAULT_BOARD` from `src/constants/index.ts`; `t` is the timestamp
taken at module load (`new Date().toISOString()`). -/
def DEFAULT_BOARD (t : String) : Board :=
  { id := "board-1", title := "Demo Board",
    lists :=
      [some { id := "list-1", title := "Todo",
              cards :=
                [some { id := "card-1", title := "Create interview Kanban",
                        description := none, comments := [], createdAt := t },
                 some { id := "card-2", title := "Review Drag & Drop",
                        description := none, comments := [], createdAt := t }] },
       some { id := "list-2", title := "In Progress",
              cards :=
                [some { id := "card-3", title := "Set up Next.js project",
                        description := none, comments := [], createdAt := t }] },
       some { id := "list-3", title := "Done", cards := [] }],
    createdAt := t, updatedAt := t }

/-- Operation `resetBoard`: `setBoard(DEFAULT_BOARD)` — replaces the board with the
module-level default constant, ignoring the previous board. -/
def resetBoard (t : String) (_b : Board) : Board := DEFAULT_BOARD t

/-! ## JSON serialization (the `useLocalStorage` default serializer pair)

`useLocalStorage` uses `JSON.stringify` / `JSON.parse` as the default
serializer and deserializer.  We model the serialized form at the level
of the JSON tree (the text ↔ tree bijection on well-formed trees is the
runtime's).  `JSON.stringify` writes object properties in insertion
order, omits properties whose value is `undefined`, and writes
`undefined` array elements as `null`. -/

/-- JSON trees, restricted to the constructors a serialized `Board`
can contain. -/
inductive Json where
  | null : Json
  | str : String → Json
  | arr : List Json → Json
  | obj : List (String × Json) → Json

/-- Property lookup on a parsed JSON object (first occurrence wins,
as in a JS object literal with distinct keys). -/
def Json.getProp (name : String) : Json → Option Json
  | .obj props => (props.find? (fun p => p.1 = name)).map Prod.snd
  | _ => none

/-- Serialization of a `Comment` by `JSON.stringify`. -/
def Comment.toJson (c : Comment) : Json :=
  .obj [("id", .str c.id), ("text", .str c.text), ("createdAt", .str c.createdAt)]

/-- Serialization of one entry of a JS array: `undefined` elements
serialize as `null`. -/
def jsArrToJson (f : α → Json) (l : JsArr α) : Json :=
  .arr (l.map (fun o => match o with | some a => f a | none => .null))

/-- Serialization of a `Card` by `JSON.stringify`: a `description` that is absent
(`undefined`) is omitted from the object. -/
def Card.toJson (c : Card) : Json :=
  .obj ([("id", .str c.id), ("title", .str c.title)] ++
    (match c.description with | some d => [("description", .str d)] | none => []) ++
    [("comments", jsArrToJson Comment.toJson c.comments),
     ("createdAt", .str c.createdAt)])

/-- Serialization of a `List` by `JSON.stringify`. -/
def BList.toJson (l : BList) : Json :=
  .obj [("id", .str l.id), ("title", .str l.title),
        ("cards", jsArrToJson Card.toJson l.cards)]

/-- Serialization of a `Board` by `JSON.stringify`. -/
def Board.toJson (b : Board) : Json :=
  .obj [("id", .str b.id), ("title", .str b.title),
        ("lists", jsArrToJson BList.toJson b.lists),
        ("createdAt", .str b.createdAt), ("updatedAt", .str b.updatedAt)]

/-- Reading a string field out of a parsed JSON object. -/
def Json.getStr : Json → Option String
  | .str s => some s
  | _ => none

/-- Parsing the entries of a JS array back, one by one: `null` is read
back as an absent entry; a failing entry fails the whole array. -/
def jsEntriesFromJson (f : Json → Option α) : List Json → Option (JsArr α)
  | [] => some []
  | j :: rest =>
    match (match j with | .null => some none | j => (f j).map some),
        jsEntriesFromJson f rest with
    | some e, some r => some (e :: r)
    | _, _ => none

/-- Parsing a JS array back from its JSON tree. -/
def jsArrFromJson (f : Json → Option α) : Json → Option (JsArr α)
  | .arr elems => jsEntriesFromJson f elems
  | _ => none

/-- Reading a `Comment` back from its JSON tree. -/
def Comment.fromJson (j : Json) : Option Comment := do
  let id ← (j.getProp "id").bind Json.getStr
  let text ← (j.getProp "text").bind Json.getStr
  let createdAt ← (j.getProp "createdAt").bind Json.getStr
  pure { id := id, text := text, createdAt := createdAt }

/-- Reading a `Card` back from its JSON tree. -/
def Card.fromJson (j : Json) : Option Card := do
  let id ← (j.getProp "id").bind Json.getStr
  let title ← (j.getProp "title").bind Json.getStr
  let description := (j.getProp "description").bind Json.getStr
  let comments ← (j.getProp "comments").bind (jsArrFromJson Comment.fromJson)
  let createdAt ← (j.getProp "createdAt").bind Json.getStr
  pure { id := id, title := title, description := description,
         comments := comments, createdAt := createdAt }

/-- Reading a `List` back from its JSON tree. -/
def BList.fromJson (j : Json) : Option BList := do
  let id ← (j.getProp "id").bind Json.getStr
  let title ← (j.getProp "title").bind Json.getStr
  let cards ← (j.getProp "cards").bind (jsArrFromJson Card.fromJson)
  pure { id := id, title := title, cards := cards }

/-- Reading a `Board` back from its JSON tree. -/
def Board.fromJson (j : Json) : Option Board := do
  let id ← (j.getProp "id").bind Json.getStr
  let title ← (j.getProp "title").bind Json.getStr
  let lists ← (j.getProp "lists").bind (jsArrFromJson BList.fromJson)
  let createdAt ← (j.getProp "createdAt").bind Json.getStr
  let updatedAt ← (j.getProp "updatedAt").bind Json.getStr
  pure { id := id, title := title, lists := lists,
         createdAt := createdAt, updatedAt := updatedAt }

/-! ## The `useLocalStorage` hook

One hook instance, modelled as a state machine.  The React specifics
that matter and how they are modelled:

* `useState(initialValue)` — state starts as the caller default.
* The hydration effect (deps `[key, deserializer]`) reads
  `localStorage.getItem(key)` exactly once, guarded by the
  `isFirstRender` ref; a deserialization error is caught; afterwards
  `setIsHydrated(true)` runs unconditionally.
* The write-through effect (deps `[key, serializer, storedValue,
  isHydrated]`) re-runs whenever `storedValue` or `isHydrated` changes
  identity, and calls `localStorage.setItem(key, serializer(storedValue))`
  when `isHydrated` is true.  A deserialized value is always a fresh
  object, so a state replacement by the storage listener re-triggers it.
* The `storage` listener fires on events for the hook's key whose
  `newValue` is non-null; a parse error is caught and leaves state
  unchanged.

`reads` counts `localStorage.getItem` calls and `writes` logs the
serialized strings passed to `localStorage.setItem`, in order. -/

structure HookState (V : Type) where
  storedValue : V
  isHydrated : Bool
  isFirstRender : Bool
  reads : Nat
  writes : List String
deriving Repr, DecidableEq

/-- The state of a freshly mounted hook instance: the caller-supplied
default, not yet hydrated, no storage traffic. -/
def hookInit (initialValue : V) : HookState V :=
  { storedValue := initialValue, isHydrated := false, isFirstRender := true,
    reads := 0, writes := [] }

/-- External stimuli to one hook instance.

* `effectFire storage` — the hydration effect runs (mount, or a re-fire
  from changed effect deps); `storage` is the current content of
  `localStorage` at the key.
* `setValue v fresh` — the app calls the returned setter; `fresh` is
  whether the resulting value is a new object identity (a functional
  updater returning `prev` itself, as `moveCard` does on a missing
  list, gives `fresh = false` and React bails out of the re-render).
* `storageEvent newValue` — a `storage` event for the hook's key;
  `newValue = none` models `event.newValue === null`. -/
inductive HookEv (V : Type) where
  | effectFire (storage : Option String)
  | setValue (v : V) (fresh : Bool)
  | storageEvent (newValue : Option String)

/-- The write-through effect, run after a commit: it re-executes when
its deps changed (`changed`) and writes only when hydrated. -/
def runWriteEffect (ser : V → String) (changed : Bool) (st : HookState V) :
    HookState V :=
  if changed ∧ st.isHydrated then
    { st with writes := st.writes ++ [ser st.storedValue] }
  else st

/-- One step of the hook instance.  Each stimulus is followed by the
write-through effect run with the committed (new) values, matching
React's after-commit effect semantics. -/
def hookStep (ser : V → String) (deser : String → Option V)
    (st : HookState V) : HookEv V → HookState V
  | .effectFire storage =>
    if st.isFirstRender then
      let st₁ := { st with isFirstRender := false, reads := st.reads + 1 }
      let st₂ :=
        match storage with
        | none => st₁
        | some s =>
          match deser s with
          | some v => { st₁ with storedValue := v }
          | none => st₁
      runWriteEffect ser true { st₂ with isHydrated := true }
    else st
  | .setValue v fresh =>
    runWriteEffect ser fresh { st with storedValue := v }
  | .storageEvent newValue =>
    match newValue with
    | none => st
    | some s =>
      match deser s with
      | some v => runWriteEffect ser true { st with storedValue := v }
      | none => st

/-- A hook instance driven by a sequence of stimuli from mount. -/
def hookRun (ser : V → String) (deser : String → Option V)
    (init : V) (evs : List (HookEv V)) : HookState V :=
  evs.foldl (hookStep ser deser) (hookInit init)

/-! ## Helper lemmas about the JS array combinators -/

theorem allDef_tail {o : Option α} {L : JsArr α} (h : allDef (o :: L)) : allDef L :=
  fun x hx => h x (List.mem_cons_of_mem _ hx)

theorem allDef_head_some {o : Option α} {L : JsArr α} (h : allDef (o :: L)) :
    ∃ a, o = some a := by
  have := h o (List.mem_cons_self _ _)
  cases o with
  | none => simp at this
  | some a => exact ⟨a, rfl⟩

theorem mapJs_congr (f g : α → Option β) (L : JsArr α)
    (h : ∀ a, some a ∈ L → f a = g a) : mapJs f L = mapJs g L := by
  induction L with
  | nil => rfl
  | cons o L ih =>
    cases o with
    | none => rfl
    | some a =>
      have ha : f a = g a := h a (List.mem_cons_self _ _)
      have hL : mapJs f L = mapJs g L :=
        ih fun x hx => h x (List.mem_cons_of_mem _ hx)
      simp only [mapJs, ha, hL]

theorem mapJs_pure (g : α → β) (L : JsArr α) (hdef : allDef L) :
    mapJs (fun a => some (g a)) L = some (L.map (Option.map g)) := by
  induction L with
  | nil => rfl
  | cons o L ih =>
    obtain ⟨a, rfl⟩ := allDef_head_some hdef
    have hL := ih (allDef_tail hdef)
    simp only [mapJs, hL, List.map_cons]
    rfl

theorem mapJs_id (f : α → Option α) (L : JsArr α) (hdef : allDef L)
    (hf : ∀ a, some a ∈ L → f a = some a) : mapJs f L = some L := by
  induction L with
  | nil => rfl
  | cons o L ih =>
    obtain ⟨a, rfl⟩ := allDef_head_some hdef
    have ha : f a = some a := hf a (List.mem_cons_self _ _)
    have hL : mapJs f L = some L :=
      ih (allDef_tail hdef) fun x hx => hf x (List.mem_cons_of_mem _ hx)
    simp only [mapJs, ha, hL]

theorem filterJs_id (p : α → Bool) (L : JsArr α) (hdef : allDef L)
    (hp : ∀ a, some a ∈ L → p a = true) : filterJs p L = some L := by
  induction L with
  | nil => rfl
  | cons o L ih =>
    obtain ⟨a, rfl⟩ := allDef_head_some hdef
    have ha : p a = true := hp a (List.mem_cons_self _ _)
    have hL : filterJs p L = some L :=
      ih (allDef_tail hdef) fun x hx => hp x (List.mem_cons_of_mem _ hx)
    simp only [filterJs, ha, hL, if_true]

theorem findJs_not_found (p : α → Bool) (L : JsArr α) (hdef : allDef L)
    (hp : ∀ a, some a ∈ L → p a = false) : findJs p L = some none := by
  induction L with
  | nil => rfl
  | cons o L ih =>
    obtain ⟨a, rfl⟩ := allDef_head_some hdef
    have ha : p a = false := hp a (List.mem_cons_self _ _)
    have hL : findJs p L = some none :=
      ih (allDef_tail hdef) fun x hx => hp x (List.mem_cons_of_mem _ hx)
    simp only [findJs, ha, hL, Bool.false_eq_true, if_false]

theorem findJs_isSome (p : α → Bool) (L : JsArr α) (hdef : allDef L) :
    ∃ r, findJs p L = some r := by
  induction L with
  | nil => exact ⟨none, rfl⟩
  | cons o L ih =>
    obtain ⟨a, rfl⟩ := allDef_head_some hdef
    by_cases ha : p a
    · exact ⟨some a, by simp only [findJs, ha, if_true]⟩
    · obtain ⟨r, hr⟩ := ih (allDef_tail hdef)
      exact ⟨r, by simp [findJs, ha, hr]⟩

theorem findJs_some_mem (p : α → Bool) (L : JsArr α) (a : α)
    (h : findJs p L = some (some a)) : some a ∈ L ∧ p a = true := by
  induction L with
  | nil => simp [findJs] at h
  | cons o L ih =>
    cases o with
    | none => simp [findJs] at h
    | some x =>
      by_cases hx : p x
      · simp only [findJs, hx, if_true, Option.some.injEq] at h
        rcases h with h
        cases h
        exact ⟨List.mem_cons_self _ _, hx⟩
      · simp only [findJs, hx, if_false] at h
        obtain ⟨hmem, hp⟩ := ih h
        exact ⟨List.mem_cons_of_mem _ hmem, hp⟩

theorem findJs_none_all (p : α → Bool) (L : JsArr α)
    (h : findJs p L = some none) : ∀ a, some a ∈ L → p a = false := by
  induction L with
  | nil => intro a ha; simp at ha
  | cons o L ih =>
    cases o with
    | none => simp [findJs] at h
    | some x =>
      by_cases hx : p x
      · simp [findJs, hx] at h
      · simp only [findJs, hx, if_false] at h
        intro a ha
        rcases List.mem_cons.mp ha with ha | ha
        · cases ha; exact Bool.of_not_eq_true hx
        · exact ih h a ha

/-! ## Splice and reorder lemmas -/

theorem join_eq_getD (o : Option (Option α)) : o.join = o.getD none := by
  cases o <;> rfl

theorem jsStart_le (len : Nat) (i : Int) : jsStart len i ≤ len := by
  unfold jsStart
  split
  · omega
  · exact min_le_right _ _

theorem jsStart_of_valid (len : Nat) (i : Int) (h0 : 0 ≤ i) (h : i ≤ (len : Int)) :
    jsStart len i = i.toNat := by
  unfold jsStart
  rw [if_neg (by omega)]
  have : i.toNat ≤ len := by omega
  exact Nat.min_eq_left this

theorem jsStart_of_ge (len : Nat) (i : Int) (h : (len : Int) ≤ i) :
    jsStart len i = len := by
  unfold jsStart
  rw [if_neg (by omega)]
  have : len ≤ i.toNat := by omega
  exact Nat.min_eq_right this

theorem jsStart_of_le_neg (len : Nat) (i : Int) (h : i ≤ -(len : Int)) :
    jsStart len i = 0 := by
  unfold jsStart
  rcases Nat.eq_zero_or_pos len with h0 | h0
  · subst h0
    split
    · omega
    · simp
  · rw [if_pos (by omega)]
    omega

theorem splice1_valid (l : List α) (i : Int) (h0 : 0 ≤ i) (h : i < (l.length : Int)) :
    splice1 l i = (l.eraseIdx i.toNat, l[i.toNat]?) := by
  unfold splice1
  rw [jsStart_of_valid _ _ h0 (by omega), List.eraseIdx_eq_take_drop_succ]

theorem splice1_oob (l : List α) (i : Int) (h : (l.length : Int) ≤ i) :
    splice1 l i = (l, none) := by
  unfold splice1
  rw [jsStart_of_ge _ _ h]
  rw [List.getElem?_eq_none (Nat.le_refl _)]
  rw [List.drop_eq_nil_of_le (by omega)]
  simp

theorem insertIdx_eq_take_cons_drop (x : α) :
    ∀ (n : Nat) (l : List α), n ≤ l.length →
      l.insertIdx n x = l.take n ++ x :: l.drop n := by
  intro n
  induction n with
  | zero => intro l _; simp [List.insertIdx_zero]
  | succ n ih =>
    intro l hl
    cases l with
    | nil => simp at hl
    | cons a l =>
      simp only [List.insertIdx_succ_cons, List.take_succ_cons, List.drop_succ_cons,
        List.cons_append]
      rw [ih l (by simpa using hl)]

theorem spliceIns_eq_insertIdx (l : List α) (i : Int) (x : α) :
    spliceIns l i x = l.insertIdx (jsStart l.length i) x := by
  unfold spliceIns
  rw [insertIdx_eq_take_cons_drop x _ l (jsStart_le _ _)]

theorem length_spliceIns (l : List α) (i : Int) (x : α) :
    (spliceIns l i x).length = l.length + 1 := by
  unfold spliceIns
  simp only [List.length_append, List.length_take, List.length_cons, List.length_drop]
  have := jsStart_le l.length i
  omega

theorem reorderArray_valid (l : JsArr α) (s e : Int)
    (hs0 : 0 ≤ s) (hs : s < (l.length : Int)) (he0 : 0 ≤ e) (he : e < (l.length : Int)) :
    reorderArray l s e = (l.eraseIdx s.toNat).insertIdx e.toNat (l.getD s.toNat none) := by
  unfold reorderArray
  rw [splice1_valid l s hs0 hs]
  dsimp only
  rw [spliceIns_eq_insertIdx]
  have hlen : (l.eraseIdx s.toNat).length = l.length - 1 := by
    rw [List.length_eraseIdx]
    rw [if_pos (by omega)]
  rw [hlen, jsStart_of_valid _ _ he0 (by omega)]
  rw [join_eq_getD, List.getD_eq_getElem?_getD]

theorem reorderArray_length (l : JsArr α) (s e : Int)
    (hs0 : 0 ≤ s) (hs : s < (l.length : Int)) :
    (reorderArray l s e).length = l.length := by
  unfold reorderArray
  rw [splice1_valid l s hs0 hs]
  dsimp only
  rw [length_spliceIns, List.length_eraseIdx, if_pos (by omega)]
  omega

theorem reorderArray_oob_start (l : JsArr α) (s e : Int) (h : (l.length : Int) ≤ s) :
    reorderArray l s e = spliceIns l e none := by
  unfold reorderArray
  rw [splice1_oob l s h]
  rfl

theorem spliceIns_ne (l : JsArr α) (e : Int) (x : Option α) : spliceIns l e x ≠ l := by
  intro heq
  have := length_spliceIns l e x
  rw [heq] at this
  omega

theorem reorderArray_neg_clamp (l : JsArr α) (s e : Int) (h : s ≤ -(l.length : Int)) :
    reorderArray l s e = reorderArray l 0 e := by
  unfold reorderArray splice1
  rw [jsStart_of_le_neg _ _ h]
  have h0 : jsStart l.length 0 = 0 := by
    unfold jsStart
    simp
  rw [h0]

theorem reorderArray_self (l : JsArr α) (i : Int)
    (h0 : 0 ≤ i) (h : i < (l.length : Int)) :
    reorderArray l i i = l := by
  have hlt : i.toNat < l.length := by omega
  rw [reorderArray_valid l i i h0 h h0 h]
  rw [List.eraseIdx_eq_take_drop_succ]
  rw [insertIdx_eq_take_cons_drop _ _ _ (by
    simp only [List.length_append, List.length_take, List.length_drop]
    omega)]
  rw [List.take_left' (by simp [List.length_take]; omega)]
  rw [List.drop_left' (by simp [List.length_take]; omega)]
  rw [List.getD_eq_getElem?_getD, List.getElem?_eq_getElem hlt, Option.getD_some]
  rw [← List.drop_eq_getElem_cons hlt, List.take_append_drop]

/-! ## List ids, uniqueness and card counting -/

/-- The ids of the defined list entries of a board, in order. -/
def idsOf (L : JsArr BList) : List String := L.filterMap (fun o => o.map BList.id)

/-- The §3 data-model invariant: list ids are unique. -/
def nodupIds (b : Board) : Prop := (idsOf b.lists).Nodup

instance (b : Board) : Decidable (nodupIds b) := by
  unfold nodupIds; infer_instance

theorem idsOf_cons_none (L : JsArr BList) : idsOf (none :: L) = idsOf L := by
  simp [idsOf]

theorem idsOf_cons_some (l : BList) (L : JsArr BList) :
    idsOf (some l :: L) = l.id :: idsOf L := by
  simp [idsOf]

theorem mem_idsOf {L : JsArr BList} {l : BList} (h : some l ∈ L) : l.id ∈ idsOf L := by
  unfold idsOf
  exact List.mem_filterMap.mpr ⟨some l, h, rfl⟩

theorem unique_of_nodupIds {L : JsArr BList} (hnd : (idsOf L).Nodup)
    {l₁ l₂ : BList} (h₁ : some l₁ ∈ L) (h₂ : some l₂ ∈ L) (heq : l₁.id = l₂.id) :
    l₁ = l₂ := by
  induction L with
  | nil => simp at h₁
  | cons o L ih =>
    cases o with
    | none =>
      rw [idsOf_cons_none] at hnd
      have h₁t : some l₁ ∈ L := by
        rcases List.mem_cons.mp h₁ with h | h
        · exact absurd h (by simp)
        · exact h
      have h₂t : some l₂ ∈ L := by
        rcases List.mem_cons.mp h₂ with h | h
        · exact absurd h (by simp)
        · exact h
      exact ih hnd h₁t h₂t
    | some l =>
      rw [idsOf_cons_some] at hnd
      have hni : l.id ∉ idsOf L := (List.nodup_cons.mp hnd).1
      have hndL : (idsOf L).Nodup := (List.nodup_cons.mp hnd).2
      rcases List.mem_cons.mp h₁ with h1 | h1 <;>
        rcases List.mem_cons.mp h₂ with h2 | h2
      · rw [Option.some.injEq] at h1 h2
        rw [h1, h2]
      · rw [Option.some.injEq] at h1
        subst h1
        exact absurd (heq ▸ mem_idsOf h2) hni
      · rw [Option.some.injEq] at h2
        subst h2
        exact absurd (heq ▸ mem_idsOf h1) hni
      · exact ih hndL h1 h2

/-- The predicate matching a defined list entry with the given id
(an `undefined` entry never matches — in JS it would throw first). -/
def matchesId (idv : String) : Option BList → Bool
  | none => false
  | some l => l.id = idv

theorem countP_matchesId_eq_one (idv : String) {L : JsArr BList}
    (hnd : (idsOf L).Nodup) {sl : BList} (hmem : some sl ∈ L) (hid : sl.id = idv) :
    L.countP (matchesId idv) = 1 := by
  induction L with
  | nil => simp at hmem
  | cons o L ih =>
    cases o with
    | none =>
      rw [idsOf_cons_none] at hnd
      have hmem' : some sl ∈ L := by
        rcases List.mem_cons.mp hmem with h | h
        · exact absurd h (by simp)
        · exact h
      rw [List.countP_cons, ih hnd hmem']
      simp [matchesId]
    | some l =>
      rw [idsOf_cons_some] at hnd
      have hni : l.id ∉ idsOf L := (List.nodup_cons.mp hnd).1
      have hndL : (idsOf L).Nodup := (List.nodup_cons.mp hnd).2
      by_cases hl : l.id = idv
      · have hzero : L.countP (matchesId idv) = 0 := by
          rw [List.countP_eq_zero]
          intro o ho
          cases o with
          | none => simp [matchesId]
          | some l₂ =>
            simp only [matchesId, decide_eq_true_eq]
            intro hcon
            exact hni (hl ▸ hcon ▸ mem_idsOf ho)
        rw [List.countP_cons, hzero]
        simp [matchesId, hl]
      · have hmem' : some sl ∈ L := by
          rcases List.mem_cons.mp hmem with h | h
          · rw [Option.some.injEq] at h
            subst h
            exact absurd hid hl
          · exact h
        rw [List.countP_cons]
        simp only [matchesId, hl]
        rw [ih hndL hmem']
        simp

/-- The number of cards held by one (possibly `undefined`) list entry. -/
def entryLen : Option BList → Nat
  | none => 0
  | some l => l.cards.length

theorem entryLen_none : entryLen none = 0 := rfl

theorem entryLen_some (l : BList) : entryLen (some l) = l.cards.length := rfl

/-- The total number of cards across the whole board. -/
def totalCards (b : Board) : Nat := (b.lists.map entryLen).sum

theorem totalCards_map_pointwise {g : BList → BList} (L : JsArr BList)
    (h : ∀ l : BList, some l ∈ L → (g l).cards.length = l.cards.length) :
    ((L.map (Option.map g)).map entryLen).sum = (L.map entryLen).sum := by
  induction L with
  | nil => rfl
  | cons o L ih =>
    have ihL := ih fun l hl => h l (List.mem_cons_of_mem _ hl)
    cases o with
    | none =>
      have e0 : Option.map g (none : Option BList) = none := rfl
      simp only [List.map_cons, e0, List.sum_cons, ihL]
    | some l =>
      have hl := h l (List.mem_cons_self _ _)
      have e0 : Option.map g (some l) = some (g l) := rfl
      simp only [List.map_cons, e0, List.sum_cons, ihL, entryLen_some, hl]

theorem sum_entryLen_map_two (g : BList → BList) (src dst : String)
    (hne : src ≠ dst) (asrc adst ssrc sdst : Nat)
    (hfix : ∀ l : BList, l.id ≠ src → l.id ≠ dst → g l = l)
    (hs : ∀ l : BList, l.id = src → (g l).cards.length = asrc)
    (hd : ∀ l : BList, l.id = dst → (g l).cards.length = adst) :
    ∀ L : JsArr BList,
      (∀ l : BList, some l ∈ L → l.id = src → l.cards.length = ssrc) →
      (∀ l : BList, some l ∈ L → l.id = dst → l.cards.length = sdst) →
      ((L.map (Option.map g)).map entryLen).sum
          + L.countP (matchesId src) * ssrc + L.countP (matchesId dst) * sdst
        = (L.map entryLen).sum
          + L.countP (matchesId src) * asrc + L.countP (matchesId dst) * adst := by
  intro L
  induction L with
  | nil => simp
  | cons o L ih =>
    intro hLs hLd
    have ihL := ih (fun l hl => hLs l (List.mem_cons_of_mem _ hl))
      (fun l hl => hLd l (List.mem_cons_of_mem _ hl))
    cases o with
    | none =>
      have e0 : Option.map g (none : Option BList) = none := rfl
      have hmn : ∀ s, matchesId s (none : Option BList) = false := fun _ => rfl
      simp only [List.map_cons, e0, List.sum_cons, List.countP_cons, hmn,
        Bool.false_eq_true, if_false, Nat.add_zero, entryLen_none]
      linarith [ihL]
    | some l =>
      have e0 : Option.map g (some l) = some (g l) := rfl
      simp only [List.map_cons, e0, List.sum_cons, List.countP_cons, entryLen_some]
      by_cases h1 : l.id = src
      · by_cases h2 : l.id = dst
        · exact absurd (h1.symm.trans h2) hne
        · have hm1 : matchesId src (some l) = true := by simp [matchesId, h1]
          have hm2 : matchesId dst (some l) = false := by
            simp only [matchesId, decide_eq_false_iff_not]
            exact h2
          have e1 : (g l).cards.length = asrc := hs l h1
          have e2 : l.cards.length = ssrc := hLs l (List.mem_cons_self _ _) h1
          simp only [hm1, hm2, Bool.false_eq_true, if_true, if_false,
            Nat.add_zero, e1, e2, Nat.add_mul, Nat.one_mul]
          linarith [ihL]
      · have hm1 : matchesId src (some l) = false := by
          simp only [matchesId, decide_eq_false_iff_not]
          exact h1
        by_cases h2 : l.id = dst
        · have hm2 : matchesId dst (some l) = true := by simp [matchesId, h2]
          have e1 : (g l).cards.length = adst := hd l h2
          have e2 : l.cards.length = sdst := hLd l (List.mem_cons_self _ _) h2
          simp only [hm1, hm2, Bool.false_eq_true, if_true, if_false,
            Nat.add_zero, e1, e2, Nat.add_mul, Nat.one_mul]
          linarith [ihL]
        · have hm2 : matchesId dst (some l) = false := by
            simp only [matchesId, decide_eq_false_iff_not]
            exact h2
          have e1 : g l = l := hfix l h1 h2
          simp only [hm1, hm2, Bool.false_eq_true, if_false, Nat.add_zero, e1]
          linarith [ihL]

/-! ## Concrete fixtures for witnesses and counterexamples -/

/-- A concrete card, as in the spec scenario. -/
def exCard1 : Card :=
  { id := "card-1", title := "C1", description := none, comments := [],
    createdAt := "T0" }

/-- A second concrete card. -/
def exCard2 : Card :=
  { id := "card-2", title := "C2", description := none, comments := [],
    createdAt := "T0" }

/-- The spec scenario's Todo list, holding `[C1, C2]`. -/
def exTodo : BList :=
  { id := "todo", title := "Todo", cards := [some exCard1, some exCard2] }

/-- The spec scenario's empty Done list. -/
def exDone : BList := { id := "done", title := "Done", cards := [] }

/-- The spec scenario's board: Todo=[C1,C2], Done=[]. -/
def exBoard : Board :=
  { id := "board-1", title := "Demo Board", lists := [some exTodo, some exDone],
    createdAt := "T0", updatedAt := "T0" }

/-! ## Shared operation lemmas -/

/-- When the source or destination list id is absent, `moveCard` returns
the previous board unchanged (its early `return prev`). -/
theorem moveCard_absent (b : Board) (src dst : String) (s e : Int) (now : String)
    (hdef : allDef b.lists)
    (habs : src ∉ idsOf b.lists ∨ dst ∉ idsOf b.lists) :
    moveCard b src dst s e now = some b := by
  obtain ⟨rs, hrs⟩ := findJs_isSome (fun l => decide (l.id = src)) b.lists hdef
  obtain ⟨rd, hrd⟩ := findJs_isSome (fun l => decide (l.id = dst)) b.lists hdef
  unfold moveCard
  rw [hrs, hrd]
  rcases habs with habs | habs
  · have hnone : rs = none := by
      cases rs with
      | none => rfl
      | some a =>
        obtain ⟨hmem, hp⟩ := findJs_some_mem _ _ _ hrs
        rw [decide_eq_true_eq] at hp
        exact absurd (hp ▸ mem_idsOf hmem) habs
    subst hnone
    cases rd <;> rfl
  · have hnone : rd = none := by
      cases rd with
      | none => rfl
      | some a =>
        obtain ⟨hmem, hp⟩ := findJs_some_mem _ _ _ hrd
        rw [decide_eq_true_eq] at hp
        exact absurd (hp ▸ mem_idsOf hmem) habs
    subst hnone
    cases rs <;> rfl

/-! ## Claim C1 -/

/-- Claim C1, counterexample.  The claim says an operation naming an
absent `listId` returns a board structurally equal to its input with an
unchanged `updatedAt`.  In the code every such operation (except
`moveCard`) still sets `updatedAt: getCurrentTimestamp()`:
`addCard("missing-id", …)` at time `"T1"` on a board last updated at
`"T0"` returns the board with `updatedAt = "T1"`, which is not the
input board. -/
theorem c1_counterexample :
    addCard exBoard "missing-id" "title" "card-9" "T1" "T1"
        = some { exBoard with updatedAt := "T1" } ∧
      ({ exBoard with updatedAt := "T1" } : Board) ≠ exBoard := by
  decide

/-- Claim C1, amended: an operation naming a `listId` absent from
`Board.lists` (`addCard`, `updateListTitle`, `deleteAllCards`,
`reorderCards`, `addComment`, `deleteList`, `updateCardTitle`,
`deleteCard`) leaves the board unchanged except that `updatedAt` is
still set to the call time (the no-op does bump the timestamp); only
`moveCard` returns the input board unchanged, `updatedAt` included. -/
theorem c1_amended (b : Board) (listId : String) (hdef : allDef b.lists)
    (habs : listId ∉ idsOf b.lists)
    (title cardId createdAt now text commentId other : String) (s e : Int) :
    addCard b listId title cardId createdAt now = some { b with updatedAt := now } ∧
    updateListTitle b listId title now = some { b with updatedAt := now } ∧
    deleteAllCards b listId now = some { b with updatedAt := now } ∧
    reorderCards b listId s e now = some { b with updatedAt := now } ∧
    addComment b listId cardId text commentId createdAt now
        = some { b with updatedAt := now } ∧
    deleteList b listId now = some { b with updatedAt := now } ∧
    updateCardTitle b listId cardId title now = some { b with updatedAt := now } ∧
    deleteCard b listId cardId now = some { b with updatedAt := now } ∧
    moveCard b listId other s e now = some b ∧
    moveCard b other listId s e now = some b := by
  have hne : ∀ l : BList, some l ∈ b.lists → ¬l.id = listId := by
    intro l hl hcon
    exact habs (hcon ▸ mem_idsOf hl)
  refine ⟨?_, ?_, ?_, ?_, ?_, ?_, ?_, ?_, ?_, ?_⟩
  · unfold addCard
    dsimp only
    rw [mapJs_id _ b.lists hdef ?ha1]
    case ha1 =>
      intro a ha
      simp only [if_neg (hne a ha)]
    rfl
  · unfold updateListTitle
    rw [mapJs_id _ b.lists hdef ?ha2]
    case ha2 =>
      intro a ha
      simp only [if_neg (hne a ha)]
    rfl
  · unfold deleteAllCards
    rw [mapJs_id _ b.lists hdef ?ha3]
    case ha3 =>
      intro a ha
      simp only [if_neg (hne a ha)]
    rfl
  · unfold reorderCards
    rw [mapJs_id _ b.lists hdef ?ha4]
    case ha4 =>
      intro a ha
      simp only [if_neg (hne a ha)]
    rfl
  · unfold addComment
    dsimp only
    rw [mapJs_id _ b.lists hdef ?ha5]
    case ha5 =>
      intro a ha
      simp only [if_neg (hne a ha)]
    rfl
  · unfold deleteList
    rw [filterJs_id _ b.lists hdef ?ha6]
    case ha6 =>
      intro a ha
      simp [hne a ha]
    rfl
  · unfold updateCardTitle
    rw [mapJs_id _ b.lists hdef ?ha7]
    case ha7 =>
      intro a ha
      simp only [if_neg (hne a ha)]
    rfl
  · unfold deleteCard
    rw [mapJs_id _ b.lists hdef ?ha8]
    case ha8 =>
      intro a ha
      simp only [if_neg (hne a ha)]
    rfl
  · exact moveCard_absent b listId other s e now hdef (Or.inl habs)
  · exact moveCard_absent b other listId s e now hdef (Or.inr habs)

/-- Claim C1, witness: the amended claim at the concrete example board
with the absent id `"missing-id"`. -/
theorem c1_witness :
    addCard exBoard "missing-id" "title" "card-9" "T1" "T1"
      = some { exBoard with updatedAt := "T1" } :=
  (c1_amended exBoard "missing-id" (by decide) (by decide)
    "title" "card-9" "T1" "T1" "hello" "comment-1" "todo" 0 0).1

/-! ## Claim C2 -/

/-- Claim C2, counterexample.  The claim says out-of-range indices make
`reorderCards` a no-op on the sequence contents.  In the code,
`splice(startIndex, 1)` past the end removes nothing and yields
`removed = undefined`, which the second splice then inserts:
`reorderCards("todo", 5, 0)` on a two-card list does not leave the
cards unchanged — it prepends an `undefined` entry. -/
theorem c2_counterexample :
    reorderCards exBoard "todo" 5 0 "T1"
        = some { exBoard with
            lists := [some { exTodo with cards := [none, some exCard1, some exCard2] },
                      some exDone],
            updatedAt := "T1" } ∧
      ([none, some exCard1, some exCard2] : JsArr Card) ≠ exTodo.cards := by
  decide

/-- Claim C2, amended: only the list-not-found case of `moveCard` is a
no-op on the tree.  Out-of-range indices are not: with a start index at
or past the sequence length, `reorderArray` removes nothing and inserts
an `undefined` entry at the (clamped) destination, changing the
sequence; with a valid start index but a destination index past the
end, the moved element is inserted at the end (clamped); a start index
below `-length` is clamped to `0` and acts like index `0`. -/
theorem c2_amended :
    (∀ (b : Board) (src dst : String) (s e : Int) (now : String),
        allDef b.lists → (src ∉ idsOf b.lists ∨ dst ∉ idsOf b.lists) →
        moveCard b src dst s e now = some b) ∧
    (∀ (α : Type) (l : JsArr α) (s e : Int), (l.length : Int) ≤ s →
        reorderArray l s e = spliceIns l e none ∧ reorderArray l s e ≠ l) ∧
    (∀ (α : Type) (l : JsArr α) (s e : Int), 0 ≤ s → s < (l.length : Int) →
        (l.length : Int) ≤ e →
        reorderArray l s e = l.eraseIdx s.toNat ++ [l.getD s.toNat none]) ∧
    (∀ (α : Type) (l : JsArr α) (s e : Int), s ≤ -(l.length : Int) →
        reorderArray l s e = reorderArray l 0 e) := by
  refine ⟨?_, ?_, ?_, ?_⟩
  · intro b src dst s e now hdef habs
    exact moveCard_absent b src dst s e now hdef habs
  · intro α l s e h
    exact ⟨reorderArray_oob_start l s e h, by
      rw [reorderArray_oob_start l s e h]
      exact spliceIns_ne l e none⟩
  · intro α l s e hs0 hs he
    unfold reorderArray
    rw [splice1_valid l s hs0 hs]
    dsimp only
    unfold spliceIns
    have hlen : (l.eraseIdx s.toNat).length = l.length - 1 := by
      rw [List.length_eraseIdx, if_pos (by omega)]
    rw [jsStart_of_ge _ _ (by rw [hlen]; omega)]
    rw [List.take_of_length_le (by rw [hlen])]
    rw [List.drop_eq_nil_of_le (by rw [hlen])]
    rw [join_eq_getD, List.getD_eq_getElem?_getD]
  · intro α l s e h
    exact reorderArray_neg_clamp l s e h

/-- Claim C2, witness: the amended claim's out-of-range clause at a
concrete two-element array — the sequence gains an `undefined` hole. -/
theorem c2_witness :
    reorderArray ([some 1, some 2] : JsArr Nat) 5 0 ≠ [some 1, some 2] := by
  have h := (c2_amended.2.1 Nat [some 1, some 2] 5 0 (by decide)).2
  exact h

/-! ## Claim C6 -/

/-- Claim C6, counterexample.  The claim says every operation sets
`updatedAt` to the time of the call.  `moveCard` with an absent list id
returns the previous board unchanged — at call time `"T1"` the returned
`updatedAt` is still `"T0"`.  (`resetBoard` likewise installs the
default board's own timestamps rather than the call time.) -/
theorem c6_counterexample :
    moveCard exBoard "nope" "nope" 0 0 "T1" = some exBoard ∧
      exBoard.updatedAt ≠ "T1" := by
  decide

/-- Extracts `updatedAt = now` from the common shape of the map-based
operations. -/
theorem updatedAt_of_map {o : Option (JsArr BList)} {b : Board} {now : String}
    {b' : Board}
    (h : Option.map (fun ls => { b with lists := ls, updatedAt := now }) o = some b') :
    b'.updatedAt = now := by
  cases o with
  | none => exact absurd h (by simp)
  | some ls =>
    rw [Option.map_some'] at h
    cases Option.some.inj h
    rfl

/-- Claim C6, amended: every operation except `resetBoard` and except
`moveCard` with an absent source/destination list sets `updatedAt` to
the call time.  `resetBoard` installs the default board verbatim (its
`updatedAt` is the module-load timestamp, not the call time), and
`moveCard` with an absent list returns the input board unchanged, so
`updatedAt` is not monotone in general. -/
theorem c6_amended (b : Board)
    (t title newId listId cardId createdAt now text commentId src dst : String)
    (s e : Int) :
    (updateBoardTitle b title now).updatedAt = now ∧
    (addList b title newId now).updatedAt = now ∧
    (∀ b', updateListTitle b listId title now = some b' → b'.updatedAt = now) ∧
    (∀ b', deleteList b listId now = some b' → b'.updatedAt = now) ∧
    (∀ b', deleteAllCards b listId now = some b' → b'.updatedAt = now) ∧
    (reorderLists b s e now).updatedAt = now ∧
    (∀ b', addCard b listId title cardId createdAt now = some b' →
      b'.updatedAt = now) ∧
    (∀ b', updateCardTitle b listId cardId title now = some b' →
      b'.updatedAt = now) ∧
    (∀ b', deleteCard b listId cardId now = some b' → b'.updatedAt = now) ∧
    (∀ b', reorderCards b listId s e now = some b' → b'.updatedAt = now) ∧
    (∀ b', addComment b listId cardId text commentId createdAt now = some b' →
      b'.updatedAt = now) ∧
    (∀ b', moveCard b src dst s e now = some b' →
      b'.updatedAt = now ∨ b' = b) ∧
    (resetBoard t b).updatedAt = t := by
  refine ⟨rfl, rfl, ?_, ?_, ?_, rfl, ?_, ?_, ?_, ?_, ?_, ?_, rfl⟩
  · intro b' h
    exact updatedAt_of_map h
  · intro b' h
    exact updatedAt_of_map h
  · intro b' h
    exact updatedAt_of_map h
  · intro b' h
    exact updatedAt_of_map h
  · intro b' h
    exact updatedAt_of_map h
  · intro b' h
    exact updatedAt_of_map h
  · intro b' h
    exact updatedAt_of_map h
  · intro b' h
    exact updatedAt_of_map h
  · intro b' h
    unfold moveCard at h
    cases hfs : findJs (fun l => decide (l.id = src)) b.lists with
    | none =>
      rw [hfs] at h
      exact absurd h (by simp)
    | some rs =>
      rw [hfs] at h
      cases hfd : findJs (fun l => decide (l.id = dst)) b.lists with
      | none =>
        rw [hfd] at h
        exact absurd h (by simp)
      | some rd =>
        rw [hfd] at h
        cases rs with
        | none =>
          right
          cases rd <;> exact (Option.some.inj h).symm
        | some sl =>
          cases rd with
          | none =>
            right
            exact (Option.some.inj h).symm
          | some dl =>
            left
            exact updatedAt_of_map h

/-- The board produced by `updateListTitle exBoard "todo" "New" "T1"`. -/
def c6res : Board :=
  { exBoard with
    lists := [some { exTodo with title := "New" }, some exDone],
    updatedAt := "T1" }

/-- Claim C6, witness: the amended claim at a concrete board and call
time, extracting the `updateListTitle` clause at its concrete result. -/
theorem c6_witness : c6res.updatedAt = "T1" :=
  (c6_amended exBoard "T9" "New" "list-9" "todo" "card-1" "T1" "T1" "hi" "cm-1"
    "todo" "done" 0 0).2.2.1 c6res (by decide)

/-! ## Claim C5 -/

/-- A board with its `updatedAt` field erased, for comparing operation
results up to the freshly generated timestamp. -/
def eraseTime (b : Board) : Board := { b with updatedAt := "" }

/-- Claim C5: for a board satisfying the §3 data-model invariant
(unique list ids, no `undefined` holes), `moveCard(listId, listId, s, e)`
produces the same board as `reorderCards(listId, s, e)` up to the
freshly generated `updatedAt` timestamp — including when `listId` is
absent (both leave the lists untouched; only `updatedAt` differs). -/
theorem c5_same_list_equiv (b : Board) (listId : String) (s e : Int)
    (now now₂ : String) (hdef : allDef b.lists) (hnd : nodupIds b) :
    (moveCard b listId listId s e now).map eraseTime
      = (reorderCards b listId s e now₂).map eraseTime := by
  obtain ⟨r, hr⟩ := findJs_isSome (fun l => decide (l.id = listId)) b.lists hdef
  unfold moveCard reorderCards
  rw [hr]
  cases r with
  | none =>
    have hno := findJs_none_all _ _ hr
    rw [mapJs_id _ b.lists hdef ?hnomatch]
    case hnomatch =>
      intro a ha
      have : ¬a.id = listId := by simpa using hno a ha
      simp only [if_neg this]
    rfl
  | some sl =>
    obtain ⟨hmem, hp⟩ := findJs_some_mem _ _ _ hr
    rw [decide_eq_true_eq] at hp
    dsimp only
    rw [Option.map_map, Option.map_map]
    have hfun :
        (eraseTime ∘ fun ls => { b with lists := ls, updatedAt := now })
          = (eraseTime ∘ fun ls => { b with lists := ls, updatedAt := now₂ }) :=
      funext fun ls => rfl
    rw [hfun]
    congr 1
    refine mapJs_congr _ _ b.lists fun a ha => ?_
    by_cases hid : a.id = listId
    · have haeq : a = sl := unique_of_nodupIds hnd ha hmem (hid.trans hp.symm)
      subst haeq
      simp [hid]
      rfl
    · simp [hid]

/-- Claim C5, witness: the equivalence at the concrete example board,
moving the first Todo card to position 1 within the same list. -/
theorem c5_witness :
    (moveCard exBoard "todo" "todo" 0 1 "T1").map eraseTime
      = (reorderCards exBoard "todo" 0 1 "T2").map eraseTime :=
  c5_same_list_equiv exBoard "todo" 0 1 "T1" "T2" (by decide) (by decide)

/-! ## Claim C4 -/

instance {α : Type} {Q : α → Prop} [DecidablePred Q] (o : Option α) :
    Decidable (∀ a, o = some a → Q a) :=
  match o with
  | none => isTrue (by intro a h; cases h)
  | some x =>
    if hx : Q x then
      isTrue (by intro a h; cases Option.some.inj h; exact hx)
    else isFalse fun hall => hx (hall x rfl)

theorem perm_insertIdx (x : α) (m : List α) (n : Nat) (h : n ≤ m.length) :
    List.Perm (m.insertIdx n x) (x :: m) := by
  rw [insertIdx_eq_take_cons_drop x n m h]
  have h1 : List.Perm (m.take n ++ x :: m.drop n) (x :: (m.take n ++ m.drop n)) :=
    List.perm_middle
  rwa [List.take_append_drop] at h1

theorem perm_cons_eraseIdx (l : List α) (k : Nat) (hk : k < l.length) :
    List.Perm l (l[k] :: l.eraseIdx k) := by
  rw [List.eraseIdx_eq_take_drop_succ]
  have h1 : List.Perm (l.take k ++ l[k] :: l.drop (k + 1))
      (l[k] :: (l.take k ++ l.drop (k + 1))) := List.perm_middle
  have h2 : l.take k ++ l[k] :: l.drop (k + 1) = l := by
    rw [← List.drop_eq_getElem_cons hk, List.take_append_drop]
  rwa [h2] at h1

/-- For valid indices `reorderArray` permutes the sequence. -/
theorem reorderArray_perm (l : JsArr α) (s e : Int)
    (hs0 : 0 ≤ s) (hs : s < (l.length : Int)) (he0 : 0 ≤ e) (he : e < (l.length : Int)) :
    List.Perm (reorderArray l s e) l := by
  have hsl : s.toNat < l.length := by omega
  rw [reorderArray_valid l s e hs0 hs he0 he]
  have hx : l.getD s.toNat none = l[s.toNat] := by
    rw [List.getD_eq_getElem?_getD, List.getElem?_eq_getElem hsl, Option.getD_some]
  have hmlen : (l.eraseIdx s.toNat).length = l.length - 1 := by
    rw [List.length_eraseIdx, if_pos hsl]
  have h2 : List.Perm l (l[s.toNat] :: l.eraseIdx s.toNat) :=
    perm_cons_eraseIdx l s.toNat hsl
  rw [hx]
  exact (perm_insertIdx _ _ _ (by omega)).trans h2.symm

/-- Claim C4: for a board with no `undefined` holes, whenever every
list matching `listId` has both indices valid within its card count,
`reorderCards` maps exactly that list through `reorderArray`, which
(1) permutes its cards (multiset preserved), (2) equals removing the
card at `fromIndex` and reinserting it at `toIndex`, so (3) the card at
`fromIndex` ends up at `toIndex`, and (4) erasing the relocated card
recovers the erased original (relative order of the others preserved);
and `reorderCards(listId, i, i)` with a valid `i` changes nothing but
`updatedAt`. -/
theorem c4_reorderCards (b : Board) (listId : String) (s e i : Int) (now : String)
    (hdef : allDef b.lists)
    (hvalid : ∀ o ∈ b.lists, ∀ l : BList, o = some l → l.id = listId →
      0 ≤ s ∧ s < (l.cards.length : Int) ∧ 0 ≤ e ∧ e < (l.cards.length : Int))
    (hvalidi : ∀ o ∈ b.lists, ∀ l : BList, o = some l → l.id = listId →
      0 ≤ i ∧ i < (l.cards.length : Int)) :
    (∃ ls, reorderCards b listId s e now
        = some { b with lists := ls, updatedAt := now } ∧
      ls = b.lists.map (Option.map fun l =>
        if l.id = listId then { l with cards := reorderArray l.cards s e } else l)) ∧
    (∀ l : BList, some l ∈ b.lists → l.id = listId →
      List.Perm (reorderArray l.cards s e) l.cards ∧
      reorderArray l.cards s e
        = (l.cards.eraseIdx s.toNat).insertIdx e.toNat (l.cards.getD s.toNat none) ∧
      (reorderArray l.cards s e).getD e.toNat none = l.cards.getD s.toNat none ∧
      (reorderArray l.cards s e).eraseIdx e.toNat = l.cards.eraseIdx s.toNat) ∧
    reorderCards b listId i i now = some { b with updatedAt := now } := by
  refine ⟨?_, ?_, ?_⟩
  · refine ⟨_, ?_, rfl⟩
    unfold reorderCards
    rw [mapJs_pure (fun l =>
      if l.id = listId then { l with cards := reorderArray l.cards s e } else l)
      b.lists hdef]
    rfl
  · intro l hl hid
    obtain ⟨hs0, hs, he0, he⟩ := hvalid (some l) hl l rfl hid
    have hchar := reorderArray_valid l.cards s e hs0 hs he0 he
    refine ⟨reorderArray_perm l.cards s e hs0 hs he0 he, hchar, ?_, ?_⟩
    · have hmlen : (l.cards.eraseIdx s.toNat).length = l.cards.length - 1 := by
        rw [List.length_eraseIdx, if_pos (by omega)]
      have hle : e.toNat ≤ (l.cards.eraseIdx s.toNat).length := by omega
      have hlt : e.toNat
          < ((l.cards.eraseIdx s.toNat).insertIdx e.toNat
              (l.cards.getD s.toNat none)).length := by
        rw [List.length_insertIdx e.toNat _ hle]
        omega
      rw [hchar, List.getD_eq_getElem?_getD, List.getElem?_eq_getElem hlt,
        Option.getD_some]
      exact List.getElem_insertIdx_self _ _ _ hle
    · rw [hchar, List.eraseIdx_insertIdx]
  · unfold reorderCards
    rw [mapJs_id _ b.lists hdef ?hii]
    case hii =>
      intro a ha
      by_cases hid : a.id = listId
      · obtain ⟨hi0, hi⟩ := hvalidi (some a) ha a rfl hid
        simp only [if_pos hid, reorderArray_self a.cards i hi0 hi]
      · simp only [if_neg hid]
    rfl

/-- Claim C4, witness: the concrete Todo list, `reorderCards("todo",0,0)`
is a no-op up to `updatedAt`. -/
theorem c4_witness :
    reorderCards exBoard "todo" 0 0 "T1" = some { exBoard with updatedAt := "T1" } :=
  (c4_reorderCards exBoard "todo" 0 1 0 "T1" (by decide) (by decide) (by decide)).2.2

/-! ## Claim C3 -/

theorem findJs_eq_of_unique (p : α → Bool) (L : JsArr α) (hdef : allDef L)
    (sl : α) (hmem : some sl ∈ L) (hp : p sl = true)
    (huniq : ∀ a, some a ∈ L → p a = true → a = sl) :
    findJs p L = some (some sl) := by
  induction L with
  | nil => simp at hmem
  | cons o L ih =>
    obtain ⟨a, rfl⟩ := allDef_head_some hdef
    by_cases ha : p a
    · have : a = sl := huniq a (List.mem_cons_self _ _) ha
      subst this
      simp [findJs, ha]
    · have hmem' : some sl ∈ L := by
        rcases List.mem_cons.mp hmem with h | h
        · rw [Option.some.injEq] at h
          subst h
          exact absurd hp ha
        · exact h
      simp only [findJs, ha, Bool.false_eq_true, if_false]
      exact ih (allDef_tail hdef) hmem'
        fun x hx hpx => huniq x (List.mem_cons_of_mem _ hx) hpx

/-- In the same-list case, `moveCard`'s two splices on the single copied
array compute exactly `reorderArray` of the found list's cards. -/
theorem moveCard_found_same (b : Board) (listId : String) (s e : Int)
    (now : String) (sl : BList)
    (hfs : findJs (fun l => decide (l.id = listId)) b.lists = some (some sl)) :
    moveCard b listId listId s e now =
      (mapJs (fun l => some (if l.id = listId
          then { l with cards := reorderArray sl.cards s e } else l)) b.lists).map
        fun ls => { b with lists := ls, updatedAt := now } := by
  unfold moveCard
  rw [hfs]
  simp
  rfl

/-- In the cross-list case, `moveCard` removes via `splice(s, 1)` on the
source list's cards and inserts the removed JS value via
`splice(e, 0, moved)` on the destination list's cards. -/
theorem moveCard_found_ne (b : Board) (src dst : String) (hne : src ≠ dst)
    (s e : Int) (now : String) (sl dl : BList)
    (hfs : findJs (fun l => decide (l.id = src)) b.lists = some (some sl))
    (hfd : findJs (fun l => decide (l.id = dst)) b.lists = some (some dl)) :
    moveCard b src dst s e now =
      (mapJs (fun l => some (
          if l.id = src then { l with cards := (splice1 sl.cards s).1 }
          else if l.id = dst then
            { l with cards := spliceIns dl.cards e (splice1 sl.cards s).2.join }
          else l)) b.lists).map
        fun ls => { b with lists := ls, updatedAt := now } := by
  unfold moveCard
  rw [hfs, hfd]
  simp [hne]

/-- Claim C3: on a board satisfying the §3 invariant, (1) `reorderCards`
with a valid source index for every matching list preserves the total
card count; (2) same-list `moveCard` with a valid source index likewise;
(3) cross-list `moveCard` with valid indices produces a board whose
source list lost exactly the card at `sourceIndex`, whose destination
list gained it at `destIndex`, and whose total card count is unchanged;
and (4) the spec scenario `moveCard("todo","done",0,0)` on
Todo=[C1,C2], Done=[] yields Todo=[C2], Done=[C1]. -/
theorem c3_card_count (b : Board) (now : String)
    (hdef : allDef b.lists) (hnd : nodupIds b) :
    (∀ (listId : String) (s e : Int),
      (∀ o ∈ b.lists, ∀ l : BList, o = some l → l.id = listId →
          0 ≤ s ∧ s < (l.cards.length : Int)) →
      ∃ b', reorderCards b listId s e now = some b' ∧
        totalCards b' = totalCards b) ∧
    (∀ (listId : String) (s e : Int) (sl : BList),
      some sl ∈ b.lists → sl.id = listId →
      0 ≤ s → s < (sl.cards.length : Int) →
      ∃ b', moveCard b listId listId s e now = some b' ∧
        totalCards b' = totalCards b) ∧
    (∀ (src dst : String) (s e : Int) (sl dl : BList),
      src ≠ dst →
      some sl ∈ b.lists → sl.id = src →
      some dl ∈ b.lists → dl.id = dst →
      0 ≤ s → s < (sl.cards.length : Int) →
      0 ≤ e → e ≤ (dl.cards.length : Int) →
      ∃ b', moveCard b src dst s e now = some b' ∧
        totalCards b' = totalCards b ∧
        b'.lists = b.lists.map (Option.map fun l =>
          if l.id = src then { l with cards := sl.cards.eraseIdx s.toNat }
          else if l.id = dst then
            { l with cards :=
              dl.cards.insertIdx e.toNat (sl.cards.getD s.toNat none) }
          else l) ∧
        (sl.cards.eraseIdx s.toNat).length + 1 = sl.cards.length ∧
        (dl.cards.insertIdx e.toNat (sl.cards.getD s.toNat none)).length
          = dl.cards.length + 1 ∧
        b'.updatedAt = now) ∧
    moveCard exBoard "todo" "done" 0 0 now
      = some { exBoard with
          lists := [some { exTodo with cards := [some exCard2] },
                    some { exDone with cards := [some exCard1] }],
          updatedAt := now } := by
  refine ⟨?_, ?_, ?_, ?_⟩
  · intro listId s e hval
    unfold reorderCards
    rw [mapJs_pure (fun l =>
      if l.id = listId then { l with cards := reorderArray l.cards s e } else l)
      b.lists hdef]
    refine ⟨_, rfl, ?_⟩
    unfold totalCards
    dsimp only
    refine totalCards_map_pointwise b.lists fun l hl => ?_
    by_cases hid : l.id = listId
    · obtain ⟨h0, h1⟩ := hval (some l) hl l rfl hid
      rw [if_pos hid]
      exact reorderArray_length l.cards s e h0 h1
    · rw [if_neg hid]
  · intro listId s e sl hmem hid hs0 hs
    have hfs : findJs (fun l => decide (l.id = listId)) b.lists = some (some sl) :=
      findJs_eq_of_unique _ _ hdef sl hmem (by simp [hid])
        fun a ha hpa => unique_of_nodupIds hnd ha hmem
          (by rw [decide_eq_true_eq] at hpa; rw [hpa, hid])
    rw [moveCard_found_same b listId s e now sl hfs]
    rw [mapJs_pure (fun l =>
      if l.id = listId then { l with cards := reorderArray sl.cards s e } else l)
      b.lists hdef]
    refine ⟨_, rfl, ?_⟩
    unfold totalCards
    dsimp only
    refine totalCards_map_pointwise b.lists fun l hl => ?_
    by_cases hidl : l.id = listId
    · have : l = sl := unique_of_nodupIds hnd hl hmem (by rw [hidl, hid])
      subst this
      rw [if_pos hidl]
      exact reorderArray_length l.cards s e hs0 hs
    · rw [if_neg hidl]
  · intro src dst s e sl dl hne hmem_s hid_s hmem_d hid_d hs0 hs he0 he
    have hfs : findJs (fun l => decide (l.id = src)) b.lists = some (some sl) :=
      findJs_eq_of_unique _ _ hdef sl hmem_s (by simp [hid_s])
        fun a ha hpa => unique_of_nodupIds hnd ha hmem_s
          (by rw [decide_eq_true_eq] at hpa; rw [hpa, hid_s])
    have hfd : findJs (fun l => decide (l.id = dst)) b.lists = some (some dl) :=
      findJs_eq_of_unique _ _ hdef dl hmem_d (by simp [hid_d])
        fun a ha hpa => unique_of_nodupIds hnd ha hmem_d
          (by rw [decide_eq_true_eq] at hpa; rw [hpa, hid_d])
    have hsplice : splice1 sl.cards s = (sl.cards.eraseIdx s.toNat, sl.cards[s.toNat]?) :=
      splice1_valid sl.cards s hs0 hs
    have hins : spliceIns dl.cards e (sl.cards[s.toNat]?.join)
        = dl.cards.insertIdx e.toNat (sl.cards.getD s.toNat none) := by
      rw [spliceIns_eq_insertIdx, jsStart_of_valid _ _ he0 he]
      rw [join_eq_getD, List.getD_eq_getElem?_getD]
    rw [moveCard_found_ne b src dst hne s e now sl dl hfs hfd]
    rw [hsplice]
    dsimp only
    rw [hins]
    rw [mapJs_pure (fun l =>
      if l.id = src then { l with cards := sl.cards.eraseIdx s.toNat }
      else if l.id = dst then
        { l with cards := dl.cards.insertIdx e.toNat (sl.cards.getD s.toNat none) }
      else l) b.lists hdef]
    have hsl_pos : 0 < sl.cards.length := by omega
    have herase : (sl.cards.eraseIdx s.toNat).length = sl.cards.length - 1 := by
      rw [List.length_eraseIdx, if_pos (by omega)]
    have hinsert : (dl.cards.insertIdx e.toNat (sl.cards.getD s.toNat none)).length
        = dl.cards.length + 1 :=
      List.length_insertIdx e.toNat dl.cards (by omega)
    refine ⟨_, rfl, ?_, rfl, by omega, hinsert, rfl⟩
    have hcnt_s : b.lists.countP (matchesId src) = 1 :=
      countP_matchesId_eq_one src hnd hmem_s hid_s
    have hcnt_d : b.lists.countP (matchesId dst) = 1 :=
      countP_matchesId_eq_one dst hnd hmem_d hid_d
    have hsum := sum_entryLen_map_two
      (fun l => if l.id = src then { l with cards := sl.cards.eraseIdx s.toNat }
        else if l.id = dst then
          { l with cards := dl.cards.insertIdx e.toNat (sl.cards.getD s.toNat none) }
        else l)
      src dst hne (sl.cards.length - 1) (dl.cards.length + 1)
      sl.cards.length dl.cards.length
      (fun l h1 h2 => by simp only [if_neg h1, if_neg h2])
      (fun l h1 => by simp only [if_pos h1]; exact herase)
      (fun l h1 => by
        have hc : ¬l.id = src := by
          rw [h1]
          exact fun hc => hne hc.symm
        simp only [if_neg hc, if_pos h1]
        exact hinsert)
      b.lists
      (fun l hl h1 => by
        have : l = sl := unique_of_nodupIds hnd hl hmem_s (by rw [h1, hid_s])
        rw [this])
      (fun l hl h1 => by
        have : l = dl := unique_of_nodupIds hnd hl hmem_d (by rw [h1, hid_d])
        rw [this])
    rw [hcnt_s, hcnt_d] at hsum
    unfold totalCards
    dsimp only
    omega
  · rfl

/-- Claim C3, witness: the cross-list clause at the spec scenario —
total card count preserved when moving C1 from Todo to Done. -/
theorem c3_witness :
    ∃ b', moveCard exBoard "todo" "done" 0 0 "T1" = some b' ∧
      totalCards b' = totalCards exBoard := by
  obtain ⟨b', h1, h2, _⟩ :=
    (c3_card_count exBoard "T1" (by decide) (by decide)).2.2.1
      "todo" "done" 0 0 exTodo exDone (by decide) (by decide) rfl (by decide) rfl
      (by decide) (by decide) (by decide) (by decide)
  exact ⟨b', h1, h2⟩

/-! ## Claim C8 -/

/-- A toy serializer for witness instances of the generic hook. -/
def exSer : Bool → String := fun b => if b then "t" else "f"

/-- A toy deserializer for witness instances of the generic hook;
any other string fails to parse (models a `JSON.parse` throw). -/
def exDeser : String → Option Bool := fun s =>
  if s = "t" then some true else if s = "f" then some false else none

/-- Claim C8: a deserialization failure during the one-shot initial
read is caught and treated exactly like absent data — the hydration
effect performs the same state transition as when storage is empty, and
from a fresh instance the in-memory state stays the caller-supplied
default.  (`hookStep` is a total function: the read never throws out of
the sync layer.) -/
theorem c8_deser_failure {V : Type} (ser : V → String) (deser : String → Option V)
    (st : HookState V) (init : V) (s : String) (hfail : deser s = none) :
    hookStep ser deser st (.effectFire (some s))
        = hookStep ser deser st (.effectFire none) ∧
    (hookStep ser deser (hookInit init) (.effectFire (some s))).storedValue
        = init := by
  constructor
  · by_cases hfr : st.isFirstRender
    · simp [hookStep, hfr, hfail]
    · simp [hookStep, hfr]
  · simp [hookStep, hookInit, hfail, runWriteEffect]

/-- Claim C8, witness: a fresh `Bool` instance reading the unparsable
string `"bad"` keeps the default `true`. -/
theorem c8_witness :
    (hookStep exSer exDeser (hookInit true) (.effectFire (some "bad"))).storedValue
      = true :=
  (c8_deser_failure exSer exDeser (hookInit true) true "bad" (by decide)).2

/-! ## Claim C7 -/

/-- A toy serializer for `Board`-valued hook instances: the board's
title stands in for its serialized form. -/
def exSerB : Board → String := fun b => b.title

/-- A toy deserializer for `Board`-valued hook instances. -/
def exDeserB : String → Option Board := fun s => some { exBoard with title := s }

/-- A hydrated hook instance holding the example board (store B of the
cross-tab scenario, after its own mount and hydration). -/
def exStateB : HookState Board :=
  { storedValue := exBoard, isHydrated := true, isFirstRender := false,
    reads := 1, writes := [] }

/-- Claim C7, counterexample.  The claim says a value received from a
cross-tab storage event is applied *bypassing* the write-through path
(no write-back).  In the code the storage listener calls
`setStoredValue`, and the write-through effect — whose deps include
`storedValue` — re-runs and calls `localStorage.setItem`: the hydrated
store B that receives `"X"` does write `"X"` back to storage. -/
theorem c7_counterexample :
    (hookStep exSerB exDeserB exStateB (.storageEvent (some "X"))).storedValue.title
        = "X" ∧
    (hookStep exSerB exDeserB exStateB (.storageEvent (some "X"))).writes
        = ["X"] := by
  decide

/-- Claim C7, amended: on receiving a storage event for its key whose
`newValue` deserializes, the hook replaces the in-memory state with the
deserialized value without any storage read and without the app calling
the setter; but the write-through path is not bypassed — when the
instance is hydrated, the freshly received value is serialized and
written back to storage once (and only the un-hydrated case skips the
write). -/
theorem c7_amended {V : Type} (ser : V → String) (deser : String → Option V)
    (st : HookState V) (s : String) (v : V) (hds : deser s = some v) :
    (hookStep ser deser st (.storageEvent (some s))).storedValue = v ∧
    (hookStep ser deser st (.storageEvent (some s))).writes
      = (if st.isHydrated then st.writes ++ [ser v] else st.writes) ∧
    (hookStep ser deser st (.storageEvent (some s))).reads = st.reads := by
  by_cases hh : st.isHydrated <;>
    simp [hookStep, hds, runWriteEffect, hh]

/-- Claim C7, witness: the amended claim at the concrete hydrated store
B receiving serialized title `"X"` — its in-memory title becomes `"X"`
without a read and with exactly the echoed write-back. -/
theorem c7_witness :
    (hookStep exSerB exDeserB exStateB (.storageEvent (some "X"))).storedValue
      = { exBoard with title := "X" } :=
  (c7_amended exSerB exDeserB exStateB "X" { exBoard with title := "X" }
    (by decide)).1

/-! ## Claim C10 -/

/-- The inductive invariant of one hook instance: at most one storage
read ever happens, the first-render guard tracks whether it has
happened, hydration implies it has happened, and any write implies
hydration. -/
def hookInv {V : Type} (st : HookState V) : Prop :=
  st.reads ≤ 1 ∧ (st.isFirstRender = true ↔ st.reads = 0) ∧
    (st.isHydrated = true → st.reads = 1) ∧
    (st.writes ≠ [] → st.isHydrated = true)

theorem runWriteEffect_inv {V : Type} (ser : V → String) (changed : Bool)
    (st : HookState V) (h : hookInv st) : hookInv (runWriteEffect ser changed st) := by
  unfold runWriteEffect
  split
  · rename_i hc
    exact ⟨h.1, h.2.1, h.2.2.1, fun _ => hc.2⟩
  · exact h

theorem hookStep_inv {V : Type} (ser : V → String) (deser : String → Option V)
    (st : HookState V) (ev : HookEv V) (h : hookInv st) :
    hookInv (hookStep ser deser st ev) := by
  obtain ⟨h1, h2, h3, h4⟩ := h
  cases ev with
  | effectFire storage =>
    by_cases hfr : st.isFirstRender
    · have hr0 : st.reads = 0 := h2.mp hfr
      simp only [hookStep]
      rw [if_pos hfr]
      cases storage with
      | none => exact runWriteEffect_inv ser true _ (by simp [hookInv, hr0])
      | some s =>
        cases hds : deser s with
        | none => exact runWriteEffect_inv ser true _ (by simp [hookInv, hr0, hds])
        | some v => exact runWriteEffect_inv ser true _ (by simp [hookInv, hr0, hds])
    · simp only [hookStep]
      rw [if_neg hfr]
      exact ⟨h1, h2, h3, h4⟩
  | setValue v fresh =>
    simp only [hookStep]
    exact runWriteEffect_inv ser fresh _ ⟨h1, h2, h3, h4⟩
  | storageEvent newValue =>
    cases newValue with
    | none =>
      simp only [hookStep]
      exact ⟨h1, h2, h3, h4⟩
    | some s =>
      simp only [hookStep]
      cases hds : deser s with
      | none => exact ⟨h1, h2, h3, h4⟩
      | some v => exact runWriteEffect_inv ser true _ ⟨h1, h2, h3, h4⟩

theorem hookRun_inv {V : Type} (ser : V → String) (deser : String → Option V) :
    ∀ (evs : List (HookEv V)) (st : HookState V), hookInv st →
      hookInv (evs.foldl (hookStep ser deser) st) := by
  intro evs
  induction evs with
  | nil => intro st h; exact h
  | cons ev evs ih =>
    intro st h
    exact ih (hookStep ser deser st ev) (hookStep_inv ser deser st ev h)

/-- Claim C10: over every sequence of stimuli from mount — repeated
effect firings, setter calls, storage events — the hook performs at
most one storage read, and any state for which a write-through has
happened has performed exactly one read first; hence no write-through
ever precedes the one-shot initial read, and a previously persisted
value cannot be overwritten by the caller default before being read. -/
theorem c10_one_shot_hydration {V : Type} (ser : V → String)
    (deser : String → Option V) (init : V) (evs : List (HookEv V)) :
    (hookRun ser deser init evs).reads ≤ 1 ∧
    ((hookRun ser deser init evs).writes ≠ [] →
      (hookRun ser deser init evs).reads = 1) := by
  have h0 : hookInv (hookInit init) := by
    simp [hookInv, hookInit]
  have h := hookRun_inv ser deser evs (hookInit init) h0
  exact ⟨h.1, fun hw => h.2.2.1 (h.2.2.2 hw)⟩

/-- Claim C10, witness: after a mount-and-hydrate trace followed by a
redundant second effect firing, exactly one read has happened even
though writes exist. -/
theorem c10_witness :
    (hookRun exSer exDeser true
      [HookEv.effectFire none, HookEv.effectFire none]).reads = 1 :=
  (c10_one_shot_hydration exSer exDeser true
    [HookEv.effectFire none, HookEv.effectFire none]).2 (by decide)

/-! ## Claim C9 -/

theorem jsEntriesFromJson_map {α : Type} (f : α → Json) (g : Json → Option α)
    (hobj : ∀ a, ∃ props, f a = Json.obj props)
    (hrt : ∀ a, g (f a) = some a) (l : JsArr α) :
    jsEntriesFromJson g
        (l.map (fun o => match o with | some a => f a | none => Json.null))
      = some l := by
  induction l with
  | nil => rfl
  | cons o l ih =>
    cases o with
    | none => simp only [List.map_cons, jsEntriesFromJson, ih]
    | some a =>
      obtain ⟨props, hfa⟩ := hobj a
      simp only [List.map_cons, jsEntriesFromJson]
      rw [hfa]
      have hg : g (Json.obj props) = some a := by
        rw [← hfa]
        exact hrt a
      simp [hg, ih]

theorem jsArrFromJson_toJson {α : Type} (f : α → Json) (g : Json → Option α)
    (hobj : ∀ a, ∃ props, f a = Json.obj props)
    (hrt : ∀ a, g (f a) = some a) (l : JsArr α) :
    jsArrFromJson g (jsArrToJson f l) = some l := by
  unfold jsArrToJson jsArrFromJson
  exact jsEntriesFromJson_map f g hobj hrt l

theorem comment_roundtrip (c : Comment) :
    Comment.fromJson (Comment.toJson c) = some c := by
  simp [Comment.fromJson, Comment.toJson, Json.getProp, Json.getStr, List.find?]

theorem card_roundtrip (c : Card) : Card.fromJson (Card.toJson c) = some c := by
  obtain ⟨id, title, description, comments, createdAt⟩ := c
  have hc := jsArrFromJson_toJson Comment.toJson Comment.fromJson
    (fun a => ⟨_, rfl⟩) comment_roundtrip comments
  cases description with
  | none =>
    simp [Card.fromJson, Card.toJson, Json.getProp, Json.getStr, List.find?, hc]
  | some d =>
    simp [Card.fromJson, Card.toJson, Json.getProp, Json.getStr, List.find?, hc]

theorem blist_roundtrip (l : BList) : BList.fromJson (BList.toJson l) = some l := by
  have hcards := jsArrFromJson_toJson Card.toJson Card.fromJson
    (fun a => by cases hd : a.description <;> exact ⟨_, rfl⟩) card_roundtrip l.cards
  simp [BList.fromJson, BList.toJson, Json.getProp, Json.getStr, List.find?, hcards]

/-- Claim C9: serializing any `Board` value with the persistence
serializer (`JSON.stringify`, modelled at the JSON-tree level) and
deserializing the result yields a structurally equal `Board`, field for
field.  (The tree-to-text layer is the runtime's `JSON.stringify` /
`JSON.parse` bijection on well-formed trees.) -/
theorem c9_board_roundtrip (b : Board) :
    Board.fromJson (Board.toJson b) = some b := by
  have hlists := jsArrFromJson_toJson BList.toJson BList.fromJson
    (fun a => ⟨_, rfl⟩) blist_roundtrip b.lists
  simp [Board.fromJson, Board.toJson, Json.getProp, Json.getStr, List.find?, hlists]

end Trello
